import Mathlib

/-!
Verification development for the GitHub activity bot (`src/main.rs`).

The development shallowly embeds the three parts of the program that the
specification's claims are about:

* the per-file mutation engine (`modify_file`, lines 216-277 of the source),
  modelled as a pure function from the file content and the random draws of
  the run to a `FileResult`;
* the repository-string validation in `GitHubBot::new` (lines 54-75);
* the run orchestration pipeline (`run_once`, `make_changes`,
  `get_repository_files`, `create_pull_request`, `approve_and_merge_pr`,
  `run_git_command`), modelled as a writer-plus-error computation that
  records the externally visible actions (git commands, file modifications,
  API calls, sleeps) and threads the fail-fast `?` propagation of the source.

Randomness (`rand::thread_rng`) is modelled by passing the drawn values in
explicitly; the guarantees of the `rand` API (`gen_range` yields a value in
the sampled range, `choose_multiple` yields `min(amount, len)` elements at
pairwise distinct indices) appear as hypotheses of the theorems.
External effects (git exit status, GitHub API results, filesystem writes)
are supplied by an environment record `BotEnv`.
-/

/-! ### The mutation engine: `GitHubBot::modify_file` -/

/-- One iteration of `modify_file`'s edit loop: the line index drawn by
`rng.gen_range(0..lines.len())`, the strategy drawn by `rng.gen_range(0..4)`,
and the indent-unit count drawn by `rng.gen_range(0..4)` (only used by
strategy 2). -/
structure EditDraw where
  lineIdx : Nat
  strategy : Nat
  indent : Nat
deriving DecidableEq

/-- Rust `str::trim_start` on the character list (whitespace stripped from
the front). -/
def trimLeftData (cs : List Char) : List Char := cs.dropWhile Char.isWhitespace

/-- Rust `str::trim` on the character list (whitespace stripped from both
ends). -/
def trimData (cs : List Char) : List Char :=
  ((cs.dropWhile Char.isWhitespace).reverse.dropWhile Char.isWhitespace).reverse

/-- Rust `s.trim_start().starts_with("//")` for a line's character list. -/
def startsWithSlashSlash (cs : List Char) : Bool :=
  match cs with
  | '/' :: '/' :: _ => true
  | _ => false

/-- Rust `Vec::insert` at index `i` (the source only calls it with
`i = line_idx + 1 ≤ len`). -/
def insertAt (l : List String) (i : Nat) (x : String) : List String :=
  l.take i ++ [x] ++ l.drop i

/-- Rust `" ".repeat(n)`. -/
def indentSpaces (n : Nat) : String := String.mk (List.replicate n ' ')

/-- The comment appended or written by strategy 0:
`format!("// Bot update: {}", Utc::now())`, with the timestamp abstracted. -/
def botComment (t : String) : String := "// Bot update: " ++ t

/-- The line written by the catch-all strategy:
`format!("// TODO: Update this line - bot modification {}", Utc::now())`. -/
def todoComment (t : String) : String :=
  "// TODO: Update this line - bot modification " ++ t

/-- One iteration of the edit loop of `modify_file` (source lines 236-270).
`none` models the out-of-bounds panic of `modified_lines[line_idx]`; the
source draws `line_idx` from `0..lines.len()` against the original snapshot
while the vector may have grown, so in-boundedness is a fact to prove, not
an assumption of the model. -/
def applyEdit (t : String) (m : List String) (d : EditDraw) : Option (List String) :=
  match m[d.lineIdx]? with
  | none => none
  | some line =>
    if d.strategy = 0 then
      some (if (trimData line.data).isEmpty then
              m.set d.lineIdx (botComment t)
            else if !startsWithSlashSlash (trimLeftData line.data) then
              m.set d.lineIdx (line ++ " " ++ botComment t)
            else m)
    else if d.strategy = 1 then
      some (if d.lineIdx < m.length - 1 then insertAt m (d.lineIdx + 1) "" else m)
    else if d.strategy = 2 then
      some (if !(trimData line.data).isEmpty then
              m.set d.lineIdx (indentSpaces (d.indent * 4) ++ String.mk (trimData line.data))
            else m)
    else
      some (m.set d.lineIdx (todoComment t))

/-- The full edit loop `for _ in 0..num_lines_to_change` of `modify_file`. -/
def applyEdits (t : String) : List String → List EditDraw → Option (List String)
  | m, [] => some m
  | m, d :: ds =>
    match applyEdit t m d with
    | none => none
    | some m2 => applyEdits t m2 ds

/-- Rust `str::lines` as a recursion over the character list: split at `\n`,
strip one `\r` immediately before each `\n`, and drop the final empty piece
produced by a trailing `\n`.  `acc` holds the current line reversed. -/
def rustLinesAux : List Char → List Char → List String
  | [], acc => if acc.isEmpty then [] else [String.mk acc.reverse]
  | c :: rest, acc =>
    if c = '\n' then
      let acc2 := if acc.head? = some '\r' then acc.tail else acc
      String.mk acc2.reverse :: rustLinesAux rest []
    else rustLinesAux rest (c :: acc)

/-- Rust `content.lines().collect::<Vec<_>>()`. -/
def rustLines (s : String) : List String := rustLinesAux s.data []

/-- Rust `Vec::join("\n")`. -/
def joinNL : List String → String
  | [] => ""
  | [a] => a
  | a :: b :: rest => a ++ "\n" ++ joinNL (b :: rest)

/-- Result of one `modify_file` call.  `panic` models a Rust panic (the
`gen_range` draw over an empty range, or an out-of-bounds index); `noWrite`
models the early `return Ok(())` for a file with no lines (no `fs::write`
happens, the file is untouched); `wrote c` models `fs::write(full_path, c)`. -/
inductive FileResult where
  | panic
  | noWrite
  | wrote (c : String)
deriving DecidableEq

/-- `GitHubBot::modify_file` (source lines 216-277) on the content read from
the file.  The edit-count draw
`rng.gen_range(self.config.min_lines..=self.config.max_lines.min(lines.len()))`
panics exactly when the inclusive range is empty, i.e. when
`min_lines > min(max_lines, lines.len())`; `draws` lists the per-iteration
draws of the loop (its length is the drawn edit count). -/
def modifyFile (minLines maxLines : Nat) (t : String) (content : String)
    (draws : List EditDraw) : FileResult :=
  let lines := rustLines content
  if lines.isEmpty then .noWrite
  else if min maxLines lines.length < minLines then .panic
  else
    match applyEdits t lines draws with
    | none => .panic
    | some m => .wrote (joinNL m)

/-! ### Target selection: `files.choose_multiple(&mut rng, num_files_to_change)` -/

/-- `SliceRandom::choose_multiple` with the drawn index sequence made
explicit: the chosen elements are the slice entries at `idxs`.  The `rand`
API guarantees (hypotheses of the theorems) are that `idxs` is duplicate
free, in bounds, and of length `min(amount, len)`. -/
def chooseMultiple (files : List String) (idxs : List Nat) : List String :=
  idxs.filterMap fun i => files[i]?

/-! ### Repository-string validation: `GitHubBot::new` -/

/-- Rust `str::split('/')` as a recursion over the character list
(`"".split('/')` yields `[""]`, separators at the ends yield empty pieces). -/
def splitChar (sep : Char) : List Char → List (List Char)
  | [] => [[]]
  | c :: rest =>
    if c = sep then [] :: splitChar sep rest
    else
      match splitChar sep rest with
      | [] => [[c]]
      | p :: ps => (c :: p) :: ps

/-- `GitHubBot::new` (source lines 54-75): the `GITHUB_TOKEN` lookup followed
by the `repo.split('/')` shape check.  Accepts exactly when the split yields
two parts; the parts are not checked for non-emptiness. -/
def ghNew (token : Option String) (repo : String) : Except String (String × String) :=
  match token with
  | none => .error "GITHUB_TOKEN environment variable not set"
  | some _ =>
    match splitChar '/' repo.data with
    | [a, b] => .ok (String.mk a, String.mk b)
    | _ => .error "Repository should be in the format 'owner/repo'"

/-! ### The orchestration pipeline: `run_once` and its callees -/

/-- The externally visible actions of a run: local git commands
(`run_git_command`), per-file mutations (`modify_file` calls), the GitHub
pull-request creation and merge calls, and the sleeps. -/
inductive BotAction where
  | gitCmd (args : List String)
  | modifyFileAct (path : String)
  | createPR (title head base body : String)
  | sleep (secs : Nat)
  | mergePR (number : Nat) (method : String) (title : String)
deriving DecidableEq

/-- A step of the pipeline: the actions it performed, and its `Result`. -/
def TraceM (α : Type) : Type := List BotAction × Except String α

/-- The `?`-propagation of the source: on error the remaining steps do not
run and contribute no actions. -/
def TraceM.bind {α β : Type} (x : TraceM α) (f : α → TraceM β) : TraceM β :=
  match x with
  | (tr, .error e) => (tr, .error e)
  | (tr, .ok a) =>
    match f a with
    | (tr2, r) => (tr ++ tr2, r)

/-- A step that performs no action. -/
def TraceM.liftE {α : Type} (r : Except String α) : TraceM α := ([], r)

/-- A pure step. -/
def TraceM.pur {α : Type} (a : α) : TraceM α := ([], .ok a)

/-- A step that performs one action and succeeds. -/
def TraceM.emit (a : BotAction) : TraceM Unit := ([a], .ok ())

/-- The environment of one run: the outcomes of every external interaction
and the values of every random draw, in the order the source performs them. -/
structure BotEnv where
  /-- Result of `Repository::open(&self.config.repo_path)`. -/
  repoOpen : Except String Unit
  /-- Whether `repo.find_branch("main", Local)` succeeds. -/
  mainExists : Bool
  /-- Whether `repo.find_branch("master", Local)` succeeds. -/
  masterExists : Bool
  /-- Exit status of each `git` invocation, keyed by its argument list;
  `.error stderr` models a non-zero exit with that stderr text. -/
  gitResult : List String → Except String Unit
  /-- The paths collected by the first `collect_files` walk. -/
  files : List String
  /-- Result of the `fs` writes of the default-seed recovery path. -/
  seedWrite : Except String Unit
  /-- The paths collected by the second `collect_files` walk after seeding. -/
  filesAfterSeed : List String
  /-- The draw `rng.gen_range(min_files..=max_files)`. -/
  numFilesDraw : Nat
  /-- The index sequence drawn by `files.choose_multiple`. -/
  chooseIdxs : List Nat
  /-- Outcome of `self.modify_file(path)` for each selected path. -/
  modifyResult : String → Except String Unit
  /-- Outcome of the `octocrab` pull-request creation: the PR number. -/
  prResult : Except String Nat
  /-- The draw `rng.thread_rng().gen_range(60..180)`. -/
  waitDraw : Nat
  /-- Outcome of the `octocrab` merge call. -/
  mergeOk : Except String Unit
  /-- `Utc::now().timestamp()` when the branch name is built. -/
  branchTs : Nat
  /-- `Utc::now().format("%Y-%m-%d %H:%M:%S")` for the commit message. -/
  tsCommit : String
  /-- `Utc::now().format("%Y-%m-%d %H:%M:%S")` for the PR title. -/
  tsTitle : String
  /-- `Utc::now()` rendered into the PR body. -/
  tsBody : String

/-- `GitHubBot::run_git_command` (source lines 321-337): a non-zero exit is
turned into `Err(format!("Git command failed: {}", stderr))`; the stage at
which the command ran is not recorded in the error. -/
def runGitCommand (env : BotEnv) (args : List String) : Except String Unit :=
  match env.gitResult args with
  | .ok _ => .ok ()
  | .error stderr => .error ("Git command failed: " ++ stderr)

/-- A `run_git_command` step: the invocation is recorded, then its result is
propagated. -/
def gitTM (env : BotEnv) (args : List String) : TraceM Unit :=
  ([BotAction.gitCmd args], runGitCommand env args)

/-- The `main`/`master` probe of `make_changes` (source lines 103-109). -/
def resolvePrimary (env : BotEnv) : Except String String :=
  if env.mainExists then .ok "main"
  else if env.masterExists then .ok "master"
  else .error "Neither 'main' nor 'master' branch found"

/-- `format!("bot-update-{}", timestamp)` (source line 121). -/
def branchNameOf (env : BotEnv) : String := "bot-update-" ++ toString env.branchTs

/-- `format!("Update files {}", Utc::now().format("%Y-%m-%d %H:%M:%S"))`
(source line 145).  The message is built from the timestamp only. -/
def commitMessage (t : String) : String := "Update files " ++ t

/-- `GitHubBot::get_repository_files` (source lines 155-187): when the first
walk finds nothing, the default-seed recovery writes two files, stages,
commits and pushes them (to `origin main`, hard-coded), and rescans. -/
def getRepositoryFiles (env : BotEnv) : TraceM (List String) :=
  if env.files.isEmpty then
    TraceM.bind (TraceM.liftE env.seedWrite) (fun _ =>
    TraceM.bind (gitTM env ["add", "."]) (fun _ =>
    TraceM.bind (gitTM env ["commit", "-m", "Add initial files"]) (fun _ =>
    TraceM.bind (gitTM env ["push", "origin", "main"]) (fun _ =>
    TraceM.pur env.filesAfterSeed))))
  else TraceM.pur env.files

/-- The `for file_path in files_to_change { self.modify_file(file_path)?; }`
loop (source lines 140-142). -/
def modifyLoop (env : BotEnv) : List String → TraceM Unit
  | [] => TraceM.pur ()
  | f :: fs =>
    TraceM.bind (([BotAction.modifyFileAct f], env.modifyResult f) : TraceM Unit)
      (fun _ => modifyLoop env fs)

/-- `GitHubBot::make_changes` (source lines 98-153): open the repository,
resolve the primary branch, check it out and pull it, create the timestamped
working branch, collect and select files, mutate them, stage, commit, and
push the working branch; returns the working branch's name. -/
def makeChanges (env : BotEnv) : TraceM String :=
  TraceM.bind (TraceM.liftE env.repoOpen) (fun _ =>
  TraceM.bind (TraceM.liftE (resolvePrimary env)) (fun mb =>
  TraceM.bind (gitTM env ["checkout", mb]) (fun _ =>
  TraceM.bind (gitTM env ["pull", "origin", mb]) (fun _ =>
  TraceM.bind (gitTM env ["checkout", "-b", branchNameOf env]) (fun _ =>
  TraceM.bind (getRepositoryFiles env) (fun files =>
  TraceM.bind (modifyLoop env (chooseMultiple files env.chooseIdxs)) (fun _ =>
  TraceM.bind (gitTM env ["add", "."]) (fun _ =>
  TraceM.bind (gitTM env ["commit", "-m", commitMessage env.tsCommit]) (fun _ =>
  TraceM.bind (gitTM env ["push", "--set-upstream", "origin", branchNameOf env]) (fun _ =>
  TraceM.pur (branchNameOf env)))))))))))

/-- `format!("Bot update {}", ...)` (source line 280). -/
def prTitle (t : String) : String := "Bot update " ++ t

/-- The PR body of `create_pull_request` (source lines 281-284). -/
def prBody (t : String) : String :=
  "This is an automated PR created by the activity bot.\n\nTimestamp: " ++ t

/-- `GitHubBot::create_pull_request` (source lines 279-298): the base branch
of the created pull request is the string literal `"main"` (source line 290). -/
def createPullRequest (env : BotEnv) (branchName : String) : TraceM Nat :=
  ([BotAction.createPR (prTitle env.tsTitle) branchName "main" (prBody env.tsBody)],
   env.prResult)

/-- `format!("Merged bot update PR #{}", pr_number)` (source line 312). -/
def mergeTitle (n : Nat) : String := "Merged bot update PR #" ++ toString n

/-- `GitHubBot::approve_and_merge_pr` (source lines 300-319): the approval
sub-step is an explicit no-op, then a 30-second sleep, then the squash
merge. -/
def approveAndMergePR (env : BotEnv) (n : Nat) : TraceM Unit :=
  TraceM.bind (TraceM.emit (BotAction.sleep 30)) (fun _ =>
  ([BotAction.mergePR n "squash" (mergeTitle n)], env.mergeOk))

/-- `GitHubBot::run_once` (source lines 77-96): make changes, open the pull
request, sleep the drawn 60-180 second interval, approve-and-merge, and
return.  There are no further steps after the merge. -/
def runOnce (env : BotEnv) : TraceM Unit :=
  TraceM.bind (makeChanges env) (fun branch =>
  TraceM.bind (createPullRequest env branch) (fun prNum =>
  TraceM.bind (TraceM.emit (BotAction.sleep env.waitDraw)) (fun _ =>
  approveAndMergePR env prNum)))

/-! ### Derived observations on traces -/

/-- Whether a recorded action is a git command that deletes a branch, in any
of git's spellings (`git branch` with `-d`, `-D` or `--delete`, and
`git push … --delete …`). -/
def deletesBranch (a : BotAction) : Bool :=
  match a with
  | .gitCmd args =>
    args.head? = some "branch" ∨ args[1]? = some "-d" ∨ args[1]? = some "-D" ∨
      args[1]? = some "--delete" ∨ args[2]? = some "--delete"
  | _ => false

/-- The base branch of a recorded pull-request creation, if the action is
one. -/
def prBaseOf (a : BotAction) : Option String :=
  match a with
  | .createPR _ _ base _ => some base
  | _ => none

/-- The message of a recorded `git commit -m` invocation, if the action is
one. -/
def commitMsgOf (a : BotAction) : Option String :=
  match a with
  | .gitCmd ["commit", "-m", m] => some m
  | _ => none

/-- Whether a recorded action is a `modify_file` call. -/
def isModifyAct (a : BotAction) : Bool :=
  match a with
  | .modifyFileAct _ => true
  | _ => false


/-! ### Concrete run environments and stage bookkeeping -/


instance {ε α : Type} [DecidableEq ε] [DecidableEq α] : DecidableEq (Except ε α) := fun a b =>
  match a, b with
  | .ok x, .ok y =>
    if h : x = y then .isTrue (by rw [h]) else .isFalse (by intro hc; cases hc; exact h rfl)
  | .error x, .error y =>
    if h : x = y then .isTrue (by rw [h]) else .isFalse (by intro hc; cases hc; exact h rfl)
  | .ok _, .error _ => .isFalse (by intro hc; cases hc)
  | .error _, .ok _ => .isFalse (by intro hc; cases hc)

/-- A fully successful run environment with two candidate files, used by the
concrete counterexamples and witnesses. -/
def okEnv : BotEnv :=
  { repoOpen := .ok (), mainExists := true, masterExists := false,
    gitResult := fun _ => .ok (), files := ["f1.rs", "f2.md"],
    seedWrite := .ok (), filesAfterSeed := [], numFilesDraw := 1,
    chooseIdxs := [0], modifyResult := fun _ => .ok (),
    prResult := .ok 7, waitDraw := 90, mergeOk := .ok (),
    branchTs := 5, tsCommit := "TC", tsTitle := "TT", tsBody := "TB" }

/-- `okEnv` with no local `main` branch, so the primary-branch probe of
`make_changes` resolves to `master`. -/
def masterEnv : BotEnv := { okEnv with mainExists := false, masterExists := true }

/-- `okEnv` with two files selected instead of one. -/
def okEnvTwo : BotEnv := { okEnv with chooseIdxs := [0, 1] }

inductive Stage where
  | branching | mutating | committing | pushing | requesting | merging
deriving DecidableEq

def failEnv (S : Stage) (msg : String) : BotEnv :=
  match S with
  | .branching =>
    { okEnv with gitResult := fun args =>
        if args.head? = some "checkout" then .error msg else .ok () }
  | .mutating => { okEnv with modifyResult := fun _ => .error msg }
  | .committing =>
    { okEnv with gitResult := fun args =>
        if args.head? = some "commit" then .error msg else .ok () }
  | .pushing =>
    { okEnv with gitResult := fun args =>
        if args.head? = some "push" then .error msg else .ok () }
  | .requesting => { okEnv with prResult := .error msg }
  | .merging => { okEnv with mergeOk := .error msg }

/-- The pipeline stage an action belongs to, numbered in execution order
(waiting is 5, merging 6; the seeding recovery is not exercised by the
injection environments, whose candidate set is non-empty). -/
def actionRank (a : BotAction) : Nat :=
  match a with
  | .gitCmd args =>
    if args.head? = some "checkout" ∨ args.head? = some "pull" then 0
    else if args.head? = some "add" ∨ args.head? = some "commit" then 2
    else 3
  | .modifyFileAct _ => 1
  | .createPR _ _ _ _ => 4
  | .sleep _ => 5
  | .mergePR _ _ _ => 6

def stageRank : Stage → Nat
  | .branching => 0
  | .mutating => 1
  | .committing => 2
  | .pushing => 3
  | .requesting => 4
  | .merging => 6

/-- The error text `run_once` surfaces for a failure injected at a stage:
git failures are wrapped by `run_git_command`, filesystem and API failures
propagate verbatim.  No variant records the stage's name. -/
def stageCause (S : Stage) (msg : String) : String :=
  match S with
  | .branching => "Git command failed: " ++ msg
  | .committing => "Git command failed: " ++ msg
  | .pushing => "Git command failed: " ++ msg
  | _ => msg

/-- The shapes of the actions that `make_changes` can record: file
mutations, and the fixed git commands of the branching, seeding, committing
and pushing steps. -/
def mcActionSpec (env : BotEnv) (a : BotAction) : Prop :=
  (∃ p, a = BotAction.modifyFileAct p) ∨
  a = .gitCmd ["checkout", "main"] ∨ a = .gitCmd ["checkout", "master"] ∨
  a = .gitCmd ["pull", "origin", "main"] ∨ a = .gitCmd ["pull", "origin", "master"] ∨
  a = .gitCmd ["checkout", "-b", branchNameOf env] ∨
  a = .gitCmd ["add", "."] ∨
  a = .gitCmd ["commit", "-m", "Add initial files"] ∨
  a = .gitCmd ["push", "origin", "main"] ∨
  a = .gitCmd ["commit", "-m", commitMessage env.tsCommit] ∨
  a = .gitCmd ["push", "--set-upstream", "origin", branchNameOf env]

/-- A string with no carriage-return character: its bytes use LF-only line
endings. -/
abbrev crFree (s : String) : Prop := '\r' ∉ s.data


/-! ### Helper lemmas -/


theorem TraceM.mem_bind {α β : Type} {x : TraceM α} {f : α → TraceM β} {a : BotAction}
    (h : a ∈ (TraceM.bind x f).1) :
    a ∈ x.1 ∨ ∃ b, x.2 = Except.ok b ∧ a ∈ (f b).1 := by
  obtain ⟨tr, r⟩ := x
  cases r with
  | error e => exact Or.inl h
  | ok v =>
    simp only [TraceM.bind] at h
    rcases List.mem_append.mp h with h | h
    · exact Or.inl h
    · exact Or.inr ⟨v, rfl, h⟩

theorem modifyLoop_mem {env : BotEnv} {a : BotAction} :
    ∀ fs : List String, a ∈ (modifyLoop env fs).1 → ∃ p, a = BotAction.modifyFileAct p := by
  intro fs
  induction fs with
  | nil => intro h; exact absurd h (List.not_mem_nil a)
  | cons f fs ih =>
    intro h
    rcases TraceM.mem_bind h with h | ⟨b, _, h⟩
    · exact ⟨f, (List.mem_singleton.mp h)⟩
    · exact ih h

theorem getRepositoryFiles_mem {env : BotEnv} {a : BotAction}
    (h : a ∈ (getRepositoryFiles env).1) :
    a = BotAction.gitCmd ["add", "."] ∨
      a = BotAction.gitCmd ["commit", "-m", "Add initial files"] ∨
      a = BotAction.gitCmd ["push", "origin", "main"] := by
  unfold getRepositoryFiles at h
  by_cases hf : env.files.isEmpty
  · simp only [hf, if_true] at h
    rcases TraceM.mem_bind h with h | ⟨b, _, h⟩
    · exact absurd h (List.not_mem_nil a)
    rcases TraceM.mem_bind h with h | ⟨b, _, h⟩
    · exact Or.inl (List.mem_singleton.mp h)
    rcases TraceM.mem_bind h with h | ⟨b, _, h⟩
    · exact Or.inr (Or.inl (List.mem_singleton.mp h))
    rcases TraceM.mem_bind h with h | ⟨b, _, h⟩
    · exact Or.inr (Or.inr (List.mem_singleton.mp h))
    · exact absurd h (List.not_mem_nil a)
  · simp only [hf, if_false] at h
    exact absurd h (List.not_mem_nil a)

theorem resolvePrimary_ok {env : BotEnv} {mb : String}
    (h : resolvePrimary env = .ok mb) : mb = "main" ∨ mb = "master" := by
  unfold resolvePrimary at h
  by_cases h1 : env.mainExists
  · simp [h1] at h
    exact Or.inl h.symm
  · by_cases h2 : env.masterExists
    · simp [h1, h2] at h
      exact Or.inr h.symm
    · simp [h1, h2] at h

theorem botUpdate_ne {s t : String} (ht : t.data.head? ≠ some 'b') :
    "bot-update-" ++ s ≠ t := by
  intro h
  have h2 : ("bot-update-" ++ s).data.head? = some 'b' := rfl
  rw [h] at h2
  exact ht h2

theorem makeChanges_mem {env : BotEnv} {a : BotAction}
    (h : a ∈ (makeChanges env).1) : mcActionSpec env a := by
  unfold makeChanges at h
  rcases TraceM.mem_bind h with h | ⟨_, _, h⟩
  · exact absurd h (List.not_mem_nil a)
  rcases TraceM.mem_bind h with h | ⟨mb, hmb, h⟩
  · exact absurd h (List.not_mem_nil a)
  rcases resolvePrimary_ok hmb with hmb | hmb <;> subst hmb
  all_goals {
    rcases TraceM.mem_bind h with h | ⟨_, _, h⟩
    · first
      | exact Or.inr (Or.inl (List.mem_singleton.mp h))
      | exact Or.inr (Or.inr (Or.inl (List.mem_singleton.mp h)))
    rcases TraceM.mem_bind h with h | ⟨_, _, h⟩
    · first
      | exact Or.inr (Or.inr (Or.inr (Or.inl (List.mem_singleton.mp h))))
      | exact Or.inr (Or.inr (Or.inr (Or.inr (Or.inl (List.mem_singleton.mp h)))))
    rcases TraceM.mem_bind h with h | ⟨_, _, h⟩
    · exact Or.inr (Or.inr (Or.inr (Or.inr (Or.inr (Or.inl (List.mem_singleton.mp h))))))
    rcases TraceM.mem_bind h with h | ⟨files, _, h⟩
    · rcases getRepositoryFiles_mem h with h | h | h
      · exact Or.inr (Or.inr (Or.inr (Or.inr (Or.inr (Or.inr (Or.inl h))))))
      · exact Or.inr (Or.inr (Or.inr (Or.inr (Or.inr (Or.inr (Or.inr (Or.inl h)))))))
      · exact Or.inr (Or.inr (Or.inr (Or.inr (Or.inr (Or.inr (Or.inr (Or.inr (Or.inl h))))))))
    rcases TraceM.mem_bind h with h | ⟨_, _, h⟩
    · exact Or.inl (modifyLoop_mem _ h)
    rcases TraceM.mem_bind h with h | ⟨_, _, h⟩
    · exact Or.inr (Or.inr (Or.inr (Or.inr (Or.inr (Or.inr (Or.inl (List.mem_singleton.mp h)))))))
    rcases TraceM.mem_bind h with h | ⟨_, _, h⟩
    · exact Or.inr (Or.inr (Or.inr (Or.inr (Or.inr (Or.inr (Or.inr (Or.inr (Or.inr (Or.inl (List.mem_singleton.mp h))))))))))
    rcases TraceM.mem_bind h with h | ⟨_, _, h⟩
    · exact Or.inr (Or.inr (Or.inr (Or.inr (Or.inr (Or.inr (Or.inr (Or.inr (Or.inr (Or.inr (List.mem_singleton.mp h))))))))))
    · exact absurd h (List.not_mem_nil a)
  }

theorem runOnce_mem {env : BotEnv} {a : BotAction}
    (h : a ∈ (runOnce env).1) :
    a ∈ (makeChanges env).1 ∨
      (∃ bn, a = BotAction.createPR (prTitle env.tsTitle) bn "main" (prBody env.tsBody)) ∨
      a = BotAction.sleep env.waitDraw ∨ a = BotAction.sleep 30 ∨
      (∃ n, a = BotAction.mergePR n "squash" (mergeTitle n)) := by
  unfold runOnce at h
  rcases TraceM.mem_bind h with h | ⟨bn, _, h⟩
  · exact Or.inl h
  rcases TraceM.mem_bind h with h | ⟨n, _, h⟩
  · exact Or.inr (Or.inl ⟨bn, List.mem_singleton.mp h⟩)
  rcases TraceM.mem_bind h with h | ⟨_, _, h⟩
  · exact Or.inr (Or.inr (Or.inl (List.mem_singleton.mp h)))
  unfold approveAndMergePR at h
  rcases TraceM.mem_bind h with h | ⟨_, _, h⟩
  · exact Or.inr (Or.inr (Or.inr (Or.inl (List.mem_singleton.mp h))))
  · exact Or.inr (Or.inr (Or.inr (Or.inr ⟨n, List.mem_singleton.mp h⟩)))

theorem runOnce_ok_structure {env : BotEnv} (h : (runOnce env).2 = .ok ()) :
    ∃ pre n, (runOnce env).1 = pre ++ [BotAction.mergePR n "squash" (mergeTitle n)] := by
  rcases hmk : makeChanges env with ⟨tr1, r1⟩
  cases r1 with
  | error e =>
    exfalso
    simp only [runOnce, TraceM.bind, hmk] at h
    exact absurd h (by simp)
  | ok bn =>
    cases hpr : env.prResult with
    | error e =>
      exfalso
      simp only [runOnce, TraceM.bind, hmk, createPullRequest, hpr,
        approveAndMergePR, TraceM.emit] at h
      exact absurd h (by simp)
    | ok n =>
      refine ⟨tr1 ++ [BotAction.createPR (prTitle env.tsTitle) bn "main" (prBody env.tsBody),
        BotAction.sleep env.waitDraw, BotAction.sleep 30], n, ?_⟩
      simp only [runOnce, TraceM.bind, hmk, createPullRequest, hpr,
        approveAndMergePR, TraceM.emit]
      rcases env.mergeOk with _ | _ <;> simp

theorem chooseMultiple_length {files : List String} {idxs : List Nat}
    (h : ∀ i ∈ idxs, i < files.length) :
    (chooseMultiple files idxs).length = idxs.length := by
  induction idxs with
  | nil => rfl
  | cons i rest ih =>
    have hi : i < files.length := h i (List.mem_cons_self i rest)
    have hrest := ih fun j hj => h j (List.mem_cons_of_mem i hj)
    simp [chooseMultiple, List.getElem?_eq_getElem hi] at hrest ⊢
    exact hrest

theorem chooseMultiple_nodup {files : List String} {idxs : List Nat}
    (hn : idxs.Nodup) (hb : ∀ i ∈ idxs, i < files.length) (hf : files.Nodup) :
    (chooseMultiple files idxs).Nodup := by
  induction idxs with
  | nil => exact List.nodup_nil
  | cons i rest ih =>
    have hi : i < files.length := hb i (List.mem_cons_self i rest)
    have htail : (chooseMultiple files rest).Nodup :=
      ih (List.Nodup.of_cons hn) (fun j hj => hb j (List.mem_cons_of_mem i hj))
    have hhead : files[i] ∉ chooseMultiple files rest := by
      intro hmem
      rcases List.mem_filterMap.mp hmem with ⟨j, hj, hjf⟩
      have hjlt : j < files.length := hb j (List.mem_cons_of_mem i hj)
      rw [List.getElem?_eq_getElem hjlt] at hjf
      have : files[j] = files[i] := Option.some.inj hjf
      have hij : j = i := (List.Nodup.getElem_inj_iff hf).mp this
      rw [hij] at hj
      exact (List.nodup_cons.mp hn).1 hj
    have hcons : chooseMultiple files (i :: rest) = files[i] :: chooseMultiple files rest := by
      simp [chooseMultiple, List.getElem?_eq_getElem hi]
    rw [hcons]
    exact List.nodup_cons.mpr ⟨hhead, htail⟩

theorem insertAt_length (l : List String) (i : Nat) (x : String) :
    l.length ≤ (insertAt l i x).length := by
  simp [insertAt]
  omega

theorem applyEdit_some_of_lt {t : String} {m : List String} {d : EditDraw}
    (hidx : d.lineIdx < m.length) :
    ∃ m2, applyEdit t m d = some m2 ∧ m.length ≤ m2.length := by
  unfold applyEdit
  rw [List.getElem?_eq_getElem hidx]
  split_ifs
  all_goals refine ⟨_, rfl, ?_⟩
  all_goals first
    | (split_ifs <;> simp [List.length_set])
    | exact insertAt_length m (d.lineIdx + 1) ""
    | exact le_refl _
    | simp [List.length_set]

theorem applyEdits_some {t : String} {L : Nat} :
    ∀ (draws : List EditDraw) (m : List String), L ≤ m.length →
      (∀ d ∈ draws, d.lineIdx < L) →
      ∃ m2, applyEdits t m draws = some m2 := by
  intro draws
  induction draws with
  | nil => intro m _ _; exact ⟨m, rfl⟩
  | cons d ds ih =>
    intro m hL hd
    have hidx : d.lineIdx < m.length :=
      lt_of_lt_of_le (hd d (List.mem_cons_self d ds)) hL
    obtain ⟨m2, hm2, hlen⟩ := applyEdit_some_of_lt (t := t) hidx
    obtain ⟨m3, hm3⟩ := ih m2 (hL.trans hlen) (fun e he => hd e (List.mem_cons_of_mem d he))
    exact ⟨m3, by simp [applyEdits, hm2, hm3]⟩

theorem String.data_app (a b : String) : (a ++ b).data = a.data ++ b.data := by
  cases a; cases b; rfl

theorem crFree_append {a b : String} (ha : crFree a) (hb : crFree b) :
    crFree (a ++ b) := by
  intro h
  rw [String.data_app] at h
  rcases List.mem_append.mp h with h | h
  · exact ha h
  · exact hb h

theorem mem_of_mem_trimData {x : Char} {cs : List Char} (h : x ∈ trimData cs) : x ∈ cs := by
  unfold trimData at h
  rw [List.mem_reverse] at h
  have h2 := (List.dropWhile_sublist (l := (cs.dropWhile Char.isWhitespace).reverse)
    (p := Char.isWhitespace)).mem h
  rw [List.mem_reverse] at h2
  exact (List.dropWhile_sublist (l := cs) (p := Char.isWhitespace)).mem h2

theorem crFree_of_set {m : List String} {i : Nat} {x l : String}
    (hm : ∀ s ∈ m, crFree s) (hx : crFree x) (hl : l ∈ m.set i x) : crFree l := by
  rcases List.mem_or_eq_of_mem_set hl with h | rfl
  · exact hm l h
  · exact hx

theorem crFree_of_insertAt {m : List String} {i : Nat} {x l : String}
    (hm : ∀ s ∈ m, crFree s) (hx : crFree x) (hl : l ∈ insertAt m i x) : crFree l := by
  unfold insertAt at hl
  rcases List.mem_append.mp hl with h | h
  · rcases List.mem_append.mp h with h | h
    · exact hm l ((List.take_sublist i m).mem h)
    · rw [List.mem_singleton.mp h]; exact hx
  · exact hm l ((List.drop_sublist i m).mem h)

theorem applyEdit_crFree {t : String} {m m2 : List String} {d : EditDraw}
    (ht : crFree t) (hm : ∀ l ∈ m, crFree l)
    (h : applyEdit t m d = some m2) : ∀ l ∈ m2, crFree l := by
  unfold applyEdit at h
  cases hg : m[d.lineIdx]? with
  | none => rw [hg] at h; exact absurd h (by simp)
  | some line =>
    rw [hg] at h
    have hline : crFree line := hm line (List.getElem?_mem hg)
    have hbot : crFree (botComment t) := crFree_append (by decide) ht
    have htodo : crFree (todoComment t) := crFree_append (by decide) ht
    have hind : crFree (indentSpaces (d.indent * 4) ++ String.mk (trimData line.data)) := by
      refine crFree_append ?_ ?_
      · intro hc
        exact absurd (List.eq_of_mem_replicate hc) (by decide)
      · intro hc
        exact hline (mem_of_mem_trimData hc)
    split_ifs at h
    all_goals rw [← Option.some.inj h]
    all_goals intro l hl
    all_goals try split_ifs at hl
    all_goals first
      | exact hm l hl
      | exact crFree_of_set hm hbot hl
      | exact crFree_of_set hm (crFree_append (crFree_append hline (by decide)) hbot) hl
      | exact crFree_of_insertAt hm (by decide) hl
      | exact crFree_of_set hm hind hl
      | exact crFree_of_set hm htodo hl

theorem applyEdits_crFree {t : String} (ht : crFree t) :
    ∀ (draws : List EditDraw) (m m2 : List String), (∀ l ∈ m, crFree l) →
      applyEdits t m draws = some m2 → ∀ l ∈ m2, crFree l := by
  intro draws
  induction draws with
  | nil =>
    intro m m2 hm h
    rw [← Option.some.inj h]
    exact hm
  | cons d ds ih =>
    intro m m2 hm h
    unfold applyEdits at h
    cases he : applyEdit t m d with
    | none => rw [he] at h; exact absurd h (by simp)
    | some mid =>
      rw [he] at h
      exact ih mid m2 (applyEdit_crFree ht hm he) h

theorem joinNL_crFree : ∀ m : List String, (∀ l ∈ m, crFree l) → crFree (joinNL m) := by
  intro m
  induction m with
  | nil => intro _; decide
  | cons a m2 ih =>
    intro h
    cases m2 with
    | nil => exact h a (List.mem_singleton.mpr rfl)
    | cons b rest =>
      have : joinNL (a :: b :: rest) = a ++ "\n" ++ joinNL (b :: rest) := rfl
      rw [this]
      refine crFree_append (crFree_append ?_ (by decide)) ?_
      · exact h a (List.mem_cons_self a (b :: rest))
      · exact ih fun l hl => h l (List.mem_cons_of_mem a hl)

theorem splitChar_ne_nil (sep : Char) (cs : List Char) : splitChar sep cs ≠ [] := by
  cases cs with
  | nil => simp [splitChar]
  | cons c rest =>
    unfold splitChar
    by_cases hc : c = sep
    · simp [hc]
    · cases h : splitChar sep rest <;> simp [hc, h]

theorem splitChar_length (sep : Char) (cs : List Char) :
    (splitChar sep cs).length = cs.count sep + 1 := by
  induction cs with
  | nil => simp [splitChar]
  | cons c rest ih =>
    unfold splitChar
    by_cases hc : c = sep
    · simp [hc, List.count_cons, ih]
    · cases h : splitChar sep rest with
      | nil => exact absurd h (splitChar_ne_nil sep rest)
      | cons p ps =>
        rw [h] at ih
        simp only [List.length_cons] at ih
        simp [hc, List.count_cons, ← ih]


/-! ### The claims -/


/-- Claim C1, corrected: in every run in which the merge stage succeeds,
`run_once` reports success immediately after the merge — the squash-merge call
is the final recorded action of the run, and no git command of the run deletes
a branch.  The cleanup stage the specification describes (switch back to the
primary branch, delete the working branch locally and remotely) does not
exist in `run_once`. -/
theorem c1_amended (env : BotEnv) (h : (runOnce env).2 = .ok ()) :
    (∀ a ∈ (runOnce env).1, deletesBranch a = false) ∧
    ∃ pre n, (runOnce env).1 = pre ++ [BotAction.mergePR n "squash" (mergeTitle n)] := by
  refine ⟨?_, runOnce_ok_structure h⟩
  intro a ha
  have hb : branchNameOf env ≠ "--delete" := botUpdate_ne (by decide)
  rcases runOnce_mem ha with ha | ⟨bn, rfl⟩ | rfl | rfl | ⟨n, rfl⟩
  · rcases makeChanges_mem ha with ⟨p, rfl⟩ | rfl | rfl | rfl | rfl | rfl | rfl | rfl | rfl | rfl | rfl
    · rfl
    · rfl
    · rfl
    · rfl
    · rfl
    · simp [deletesBranch, hb]
    · rfl
    · rfl
    · rfl
    · rfl
    · rfl
  · rfl
  · rfl
  · rfl
  · rfl

/-- Claim C1, counterexample: a fully successful run (merge succeeded) whose
final action is the merge itself; no branch-deleting git command occurs
anywhere in the run, so no cleanup stage ran before success was reported. -/
theorem c1_counterexample :
    (runOnce okEnv).2 = .ok () ∧
    (runOnce okEnv).1.getLast? = some (BotAction.mergePR 7 "squash" (mergeTitle 7)) ∧
    ∀ a ∈ (runOnce okEnv).1, deletesBranch a = false := by
  refine ⟨rfl, by decide, by decide⟩

/-- Claim C1, witness: the amended theorem applied to the concrete successful
environment `okEnv`. -/
theorem c1_witness :
    (∀ a ∈ (runOnce okEnv).1, deletesBranch a = false) ∧
    ∃ pre n, (runOnce okEnv).1 = pre ++ [BotAction.mergePR n "squash" (mergeTitle n)] :=
  c1_amended okEnv rfl

/-- Claim C2, corrected: the base branch of every pull request opened by
`run_once` is the hard-coded string `"main"` (source line 290), regardless of
the primary branch resolved in the branching stage. -/
theorem c2_amended (env : BotEnv) (t h base b : String)
    (hmem : BotAction.createPR t h base b ∈ (runOnce env).1) : base = "main" := by
  rcases runOnce_mem hmem with ha | ⟨bn, heq⟩ | heq | heq | ⟨n, heq⟩
  · rcases makeChanges_mem ha with ⟨p, heq⟩ | heq | heq | heq | heq | heq | heq | heq | heq | heq | heq <;>
      simp at heq
  · simp only [BotAction.createPR.injEq] at heq
    exact heq.2.2.1
  · simp at heq
  · simp at heq
  · simp at heq

/-- Claim C2, counterexample: a successful run on a repository whose primary
branch resolves to `master` (the branching stage checks out `master`), yet
the single pull request of the run is opened against base `"main"`,
not `"master"`. -/
theorem c2_counterexample :
    (runOnce masterEnv).2 = .ok () ∧
    BotAction.gitCmd ["checkout", "master"] ∈ (runOnce masterEnv).1 ∧
    (runOnce masterEnv).1.filterMap prBaseOf = ["main"] ∧
    "main" ≠ "master" := by
  refine ⟨rfl, by decide, by decide, by decide⟩

/-- Claim C2, witness: the amended theorem applied to the pull-request action
of the concrete successful run of `okEnv`. -/
theorem c2_witness :
    BotAction.createPR (prTitle "TT") (branchNameOf okEnv) "main" (prBody "TB") ∈
      (runOnce okEnv).1 ∧ "main" = "main" :=
  ⟨by decide, c2_amended okEnv (prTitle "TT") (branchNameOf okEnv) "main" (prBody "TB") (by decide)⟩

/-- Claim C3, corrected: for a failure injected at any stage `S`, `run_once`
aborts without recording any action of a stage after `S` and returns the
failure with the underlying cause (git failures wrapped as
`Git command failed: …`, API and filesystem failures verbatim).  The outcome
does not name the failing stage. -/
theorem c3_amended (S : Stage) (msg : String) :
    (runOnce (failEnv S msg)).2 = .error (stageCause S msg) ∧
    ∀ a ∈ (runOnce (failEnv S msg)).1, actionRank a ≤ stageRank S := by
  cases S
  case branching =>
    refine ⟨rfl, ?_⟩
    have ht : (runOnce (failEnv Stage.branching msg)).1 =
        [BotAction.gitCmd ["checkout", "main"]] := rfl
    rw [ht]; simp [actionRank, stageRank]
  case mutating =>
    refine ⟨rfl, ?_⟩
    have ht : (runOnce (failEnv Stage.mutating msg)).1 =
        [BotAction.gitCmd ["checkout", "main"], BotAction.gitCmd ["pull", "origin", "main"],
         BotAction.gitCmd ["checkout", "-b", branchNameOf (failEnv Stage.mutating msg)],
         BotAction.modifyFileAct "f1.rs"] := rfl
    rw [ht]; simp [actionRank, stageRank]
  case committing =>
    refine ⟨rfl, ?_⟩
    have ht : (runOnce (failEnv Stage.committing msg)).1 =
        [BotAction.gitCmd ["checkout", "main"], BotAction.gitCmd ["pull", "origin", "main"],
         BotAction.gitCmd ["checkout", "-b", branchNameOf (failEnv Stage.committing msg)],
         BotAction.modifyFileAct "f1.rs", BotAction.gitCmd ["add", "."],
         BotAction.gitCmd ["commit", "-m", commitMessage "TC"]] := rfl
    rw [ht]; simp [actionRank, stageRank]
  case pushing =>
    refine ⟨rfl, ?_⟩
    have ht : (runOnce (failEnv Stage.pushing msg)).1 =
        [BotAction.gitCmd ["checkout", "main"], BotAction.gitCmd ["pull", "origin", "main"],
         BotAction.gitCmd ["checkout", "-b", branchNameOf (failEnv Stage.pushing msg)],
         BotAction.modifyFileAct "f1.rs", BotAction.gitCmd ["add", "."],
         BotAction.gitCmd ["commit", "-m", commitMessage "TC"],
         BotAction.gitCmd ["push", "--set-upstream", "origin",
           branchNameOf (failEnv Stage.pushing msg)]] := rfl
    rw [ht]; simp [actionRank, stageRank]
  case requesting =>
    refine ⟨rfl, ?_⟩
    have ht : (runOnce (failEnv Stage.requesting msg)).1 =
        [BotAction.gitCmd ["checkout", "main"], BotAction.gitCmd ["pull", "origin", "main"],
         BotAction.gitCmd ["checkout", "-b", branchNameOf (failEnv Stage.requesting msg)],
         BotAction.modifyFileAct "f1.rs", BotAction.gitCmd ["add", "."],
         BotAction.gitCmd ["commit", "-m", commitMessage "TC"],
         BotAction.gitCmd ["push", "--set-upstream", "origin",
           branchNameOf (failEnv Stage.requesting msg)],
         BotAction.createPR (prTitle "TT") (branchNameOf (failEnv Stage.requesting msg))
           "main" (prBody "TB")] := rfl
    rw [ht]; simp [actionRank, stageRank]
  case merging =>
    refine ⟨rfl, ?_⟩
    have ht : (runOnce (failEnv Stage.merging msg)).1 =
        [BotAction.gitCmd ["checkout", "main"], BotAction.gitCmd ["pull", "origin", "main"],
         BotAction.gitCmd ["checkout", "-b", branchNameOf (failEnv Stage.merging msg)],
         BotAction.modifyFileAct "f1.rs", BotAction.gitCmd ["add", "."],
         BotAction.gitCmd ["commit", "-m", commitMessage "TC"],
         BotAction.gitCmd ["push", "--set-upstream", "origin",
           branchNameOf (failEnv Stage.merging msg)],
         BotAction.createPR (prTitle "TT") (branchNameOf (failEnv Stage.merging msg))
           "main" (prBody "TB"),
         BotAction.sleep 90, BotAction.sleep 30,
         BotAction.mergePR 7 "squash" (mergeTitle 7)] := rfl
    rw [ht]; simp [actionRank, stageRank]

/-- Claim C3, counterexample: failures injected at two different stages
(committing vs pushing, distinguished by whether the push command ran)
produce byte-identical outcomes, so the returned outcome does not identify
the failing stage. -/
theorem c3_counterexample :
    (runOnce (failEnv .committing "boom")).2 = (runOnce (failEnv .pushing "boom")).2 ∧
    (runOnce (failEnv .committing "boom")).2 = .error "Git command failed: boom" ∧
    BotAction.gitCmd ["push", "--set-upstream", "origin", "bot-update-5"] ∈
      (runOnce (failEnv .pushing "boom")).1 ∧
    BotAction.gitCmd ["push", "--set-upstream", "origin", "bot-update-5"] ∉
      (runOnce (failEnv .committing "boom")).1 := by
  refine ⟨rfl, rfl, by decide, by decide⟩

/-- Claim C4, corrected: every `git commit -m` message recorded by a run is
either `Update files <timestamp>` (the committing stage, source line 145) or
the fixed seed message `Add initial files`; neither states the count of
files affected by the run's mutations. -/
theorem c4_amended (env : BotEnv) (m : String)
    (hm : m ∈ (runOnce env).1.filterMap commitMsgOf) :
    m = commitMessage env.tsCommit ∨ m = "Add initial files" := by
  rcases List.mem_filterMap.mp hm with ⟨a, ha, hma⟩
  rcases runOnce_mem ha with ha | ⟨bn, rfl⟩ | rfl | rfl | ⟨n, rfl⟩
  · rcases makeChanges_mem ha with ⟨p, rfl⟩ | rfl | rfl | rfl | rfl | rfl | rfl | rfl | rfl | rfl | rfl
    · exact Option.noConfusion hma
    · exact Option.noConfusion hma
    · exact Option.noConfusion hma
    · exact Option.noConfusion hma
    · exact Option.noConfusion hma
    · exact Option.noConfusion hma
    · exact Option.noConfusion hma
    · exact Or.inr (Option.some.inj hma).symm
    · exact Option.noConfusion hma
    · exact Or.inl (Option.some.inj hma).symm
    · exact Option.noConfusion hma
  · exact Option.noConfusion hma
  · exact Option.noConfusion hma
  · exact Option.noConfusion hma
  · exact Option.noConfusion hma

/-- Claim C4, counterexample: two runs that modify different numbers of
files (one vs two `modify_file` calls) produce the identical commit message
`Update files TC`, so the message cannot reference the count of affected
files. -/
theorem c4_counterexample :
    (runOnce okEnv).1.countP isModifyAct = 1 ∧
    (runOnce okEnvTwo).1.countP isModifyAct = 2 ∧
    (runOnce okEnv).1.filterMap commitMsgOf = ["Update files TC"] ∧
    (runOnce okEnvTwo).1.filterMap commitMsgOf = ["Update files TC"] := by
  refine ⟨by decide, by decide, by decide, by decide⟩

/-- Claim C4, witness: the amended theorem applied to the commit message of
the concrete run of `okEnv`. -/
theorem c4_witness :
    commitMessage "TC" ∈ (runOnce okEnv).1.filterMap commitMsgOf ∧
    (commitMessage "TC" = commitMessage okEnv.tsCommit ∨ commitMessage "TC" = "Add initial files") :=
  ⟨by decide, c4_amended okEnv (commitMessage "TC") (by decide)⟩

/-- Claim C5, corrected: with the `rand` guarantees as hypotheses (the drawn
count `num` lies in `[min_files, max_files]`, and `choose_multiple` draws
`min(num, |candidates|)` distinct in-bounds indices), target selection
returns exactly `min(num, |candidates|)` files — hence between
`min(min_files, |candidates|)` and `min(max_files, |candidates|)` — and the
chosen paths are pairwise distinct whenever the candidate paths are.  The
draw is not clamped to the candidate count, so the result drops below
`min_files` when candidates are scarce. -/
theorem c5_amended (minF maxF num : Nat) (files : List String) (idxs : List Nat)
    (h1 : minF ≤ num) (h2 : num ≤ maxF)
    (hn : idxs.Nodup) (hb : ∀ i ∈ idxs, i < files.length)
    (hlen : idxs.length = min num files.length) :
    (chooseMultiple files idxs).length = min num files.length ∧
    min minF files.length ≤ (chooseMultiple files idxs).length ∧
    (chooseMultiple files idxs).length ≤ min maxF files.length ∧
    (files.Nodup → (chooseMultiple files idxs).Nodup) := by
  have hL : (chooseMultiple files idxs).length = min num files.length := by
    rw [chooseMultiple_length hb, hlen]
  refine ⟨hL, ?_, ?_, fun hf => chooseMultiple_nodup hn hb hf⟩
  · rw [hL]
    exact min_le_min h1 (le_refl files.length)
  · rw [hL]
    exact min_le_min h2 (le_refl files.length)

/-- Claim C5, counterexample: with `min_files = 2 ≤ max_files = 3` and a
single candidate, a valid draw selects only 1 file, below `min_files`; and
with a duplicated candidate list the chosen paths are not pairwise
distinct. -/
theorem c5_counterexample :
    (2 ≤ 2 ∧ 2 ≤ 3 ∧ ([0] : List Nat).Nodup ∧
      (∀ i ∈ ([0] : List Nat), i < (["a"] : List String).length) ∧
      ([0] : List Nat).length = min 2 (["a"] : List String).length ∧
      ¬ 2 ≤ (chooseMultiple ["a"] [0]).length) ∧
    (([0, 1] : List Nat).Nodup ∧
      (∀ i ∈ ([0, 1] : List Nat), i < (["a", "a"] : List String).length) ∧
      ([0, 1] : List Nat).length = min 2 (["a", "a"] : List String).length ∧
      ¬ (chooseMultiple ["a", "a"] [0, 1]).Nodup) := by
  refine ⟨⟨by decide, by decide, by decide, by decide, by decide, by decide⟩,
    ⟨by decide, by decide, by decide, by decide⟩⟩

/-- Claim C5, witness: the amended theorem applied to three candidates with
the draw `num = 2` and indices `[0, 2]`. -/
theorem c5_witness :
    (chooseMultiple ["a", "b", "c"] [0, 2]).length = min 2 (["a", "b", "c"] : List String).length ∧
    min 2 (["a", "b", "c"] : List String).length ≤ (chooseMultiple ["a", "b", "c"] [0, 2]).length ∧
    (chooseMultiple ["a", "b", "c"] [0, 2]).length ≤ min 3 (["a", "b", "c"] : List String).length ∧
    ((["a", "b", "c"] : List String).Nodup → (chooseMultiple ["a", "b", "c"] [0, 2]).Nodup) :=
  c5_amended 2 3 2 ["a", "b", "c"] [0, 2] (by decide) (by decide) (by decide)
    (by decide) (by decide)

/-- Claim C6, corrected: `modify_file` is total (returns a written result,
no panic) for every draw sequence whose line indices are within the original
line count, provided additionally `min_lines ≤ min(max_lines, lineCount)`;
without that extra bound the edit-count draw
`gen_range(min_lines..=max_lines.min(lines.len()))` samples an empty range
and panics. -/
theorem c6_amended (minL maxL : Nat) (t content : String) (draws : List EditDraw)
    (hne : rustLines content ≠ [])
    (hrange : minL ≤ min maxL (rustLines content).length)
    (hidx : ∀ d ∈ draws, d.lineIdx < (rustLines content).length) :
    ∃ c, modifyFile minL maxL t content draws = .wrote c := by
  have hemp : (rustLines content).isEmpty = false := by
    cases h : rustLines content with
    | nil => exact absurd h hne
    | cons a l => rfl
  have hlt : ¬ min maxL (rustLines content).length < minL := not_lt.mpr hrange
  obtain ⟨m, hm⟩ :=
    applyEdits_some (t := t) draws (rustLines content) (le_refl _) hidx
  refine ⟨joinNL m, ?_⟩
  unfold modifyFile
  simp [hemp, hlt, hm]

/-- Claim C6, counterexample: with `min_lines = 3 ≤ max_lines = 5` and a
non-empty one-line file, the edit-count draw samples the empty range
`3..=1` and panics, refuting the claim that `modify_file` never panics under
the claim's hypotheses. -/
theorem c6_counterexample :
    3 ≤ 5 ∧ "a" ≠ "" ∧ rustLines "a" ≠ [] ∧
    modifyFile 3 5 "t" "a" [] = FileResult.panic := by
  refine ⟨by decide, by decide, by decide, rfl⟩

/-- Claim C6, witness: the amended theorem applied to a two-line file with
one in-bounds edit draw. -/
theorem c6_witness :
    ∃ c, modifyFile 1 2 "T" "x\ny" [⟨0, 0, 0⟩] = .wrote c :=
  c6_amended 1 2 "T" "x\ny" [⟨0, 0, 0⟩] (by decide) (by decide) (by decide)

/-- Claim C7, corrected: `modify_file` joins the edited lines with LF
(`join("\n")`, source line 273), so whenever the parsed lines of the input
are carriage-return-free — as they are for a CRLF-encoded file, whose
line terminators `str::lines` strips — the rewritten content contains no
carriage return at all.  Line-ending encoding is therefore not preserved:
CRLF input is rewritten as LF. -/
theorem c7_amended (minL maxL : Nat) (t content c : String) (draws : List EditDraw)
    (hlines : ∀ l ∈ rustLines content, crFree l) (ht : crFree t)
    (hres : modifyFile minL maxL t content draws = .wrote c) : crFree c := by
  unfold modifyFile at hres
  by_cases he : (rustLines content).isEmpty
  · simp [he] at hres
  · by_cases hr : min maxL (rustLines content).length < minL
    · simp [he, hr] at hres
    · simp only [he, hr, if_false, Bool.false_eq_true] at hres
      cases hm : applyEdits t (rustLines content) draws with
      | none => rw [hm] at hres; exact absurd hres (by simp)
      | some m =>
        rw [hm] at hres
        have hc : c = joinNL m := (FileResult.wrote.inj hres).symm
        rw [hc]
        exact joinNL_crFree m (applyEdits_crFree ht draws (rustLines content) m hlines hm)

/-- Claim C7, counterexample: a CRLF-encoded file processed by an edit that
changes no line is rewritten byte-differently: the carriage returns of the
input are gone from the output, refuting preservation of the line-ending
encoding. -/
theorem c7_counterexample :
    modifyFile 1 1 "T" "// a\r\n// b" [⟨0, 0, 0⟩] = FileResult.wrote "// a\n// b" ∧
    '\r' ∈ "// a\r\n// b".data ∧ '\r' ∉ "// a\n// b".data := by
  refine ⟨rfl, by decide, by decide⟩

/-- Claim C7, witness: the amended theorem applied to the CRLF input
`"// a\r\n// b"`, whose parsed lines are carriage-return-free, and whose
rewritten content is the LF-joined `"// a\n// b"`. -/
theorem c7_witness :
    (∀ l ∈ rustLines "// a\r\n// b", crFree l) ∧ crFree "// a\n// b" :=
  ⟨by decide,
   c7_amended 1 1 "T" "// a\r\n// b" "// a\n// b" [⟨0, 0, 0⟩] (by decide) (by decide) rfl⟩

/-- Claim C8, corrected: `GitHubBot::new` (with the token present) accepts
the repo string exactly when it contains exactly one `/` separator — the
two parts are not checked for non-emptiness, so strings such as `owner/`
are accepted, with an empty repository name. -/
theorem c8_amended (tok repo : String) :
    (∃ o n, ghNew (some tok) repo = .ok (o, n)) ↔ repo.data.count '/' = 1 := by
  constructor
  · rintro ⟨o, n, h⟩
    unfold ghNew at h
    cases hs : splitChar '/' repo.data with
    | nil => exact absurd hs (splitChar_ne_nil _ _)
    | cons a ps =>
      rw [hs] at h
      cases ps with
      | nil => exact absurd h (by simp)
      | cons b ps2 =>
        cases ps2 with
        | nil =>
          have := splitChar_length '/' repo.data
          rw [hs] at this
          simp at this
          omega
        | cons d ps3 => exact absurd h (by simp)
  · intro hc
    have hl : (splitChar '/' repo.data).length = 2 := by
      rw [splitChar_length, hc]
    cases hs : splitChar '/' repo.data with
    | nil => exact absurd hs (splitChar_ne_nil _ _)
    | cons a ps =>
      rw [hs] at hl
      cases ps with
      | nil => simp at hl
      | cons b ps2 =>
        cases ps2 with
        | nil =>
          refine ⟨String.mk a, String.mk b, ?_⟩
          unfold ghNew
          rw [hs]
        | cons d ps3 => simp at hl

/-- Claim C8, counterexample: the repo string `"owner/"` — one separator but
an empty name part — is accepted by `GitHubBot::new`, not rejected as the
claim states. -/
theorem c8_counterexample :
    ghNew (some "tok") "owner/" = .ok ("owner", "") := rfl

/-- Claim C8, witness: the amended theorem applied to the well-formed repo
string `"o/r"`. -/
theorem c8_witness :
    (∃ o n, ghNew (some "tok") "o/r" = .ok (o, n)) ∧ ("o/r" : String).data.count '/' = 1 :=
  ⟨(c8_amended "tok" "o/r").mpr (by decide), by decide⟩

/-- Claim C10, confirmed: for a file whose content parses to zero lines
(the empty content), `modify_file` returns success before drawing any edit,
applying any strategy, or rewriting the file; the file is left untouched. -/
theorem c10_empty_no_write (minL maxL : Nat) (t content : String) (draws : List EditDraw)
    (h : rustLines content = []) :
    modifyFile minL maxL t content draws = .noWrite := by
  unfold modifyFile
  simp [h]

/-- Claim C10, witness: the confirmed theorem applied to the empty
content. -/
theorem c10_witness : modifyFile 1 2 "T" "" [] = FileResult.noWrite :=
  c10_empty_no_write 1 2 "T" "" [] rfl
